import Mathlib

/-!
Verification of the `sprompt` prompt renderer (`src/main.rs`).

The Rust source is shallowly embedded: pure functions become Lean functions on
`Nat` / `String` / `List Char`; reads of the process environment and of the git
collaborator become explicit parameters; Rust panics and fatal argument
validation become `Except` errors.  Machine-float computations
(`secs as f32 / 60.0`) are modelled exactly by integer arithmetic implementing
IEEE binary32 round-to-nearest-even, see `roundF32nat` / `floorF32div`.
-/

/-- Model of Rust `str::trim_end`: drop trailing whitespace characters. -/
def trimEnd (s : String) : String :=
  ⟨(s.data.reverse.dropWhile Char.isWhitespace).reverse⟩

/-- Model of Rust `str::trim`: drop leading and trailing whitespace characters. -/
def trimWs (s : String) : String :=
  ⟨((s.data.dropWhile Char.isWhitespace).reverse.dropWhile Char.isWhitespace).reverse⟩

/-- Base-2 floor logarithm, fuel-structured so that the kernel can evaluate it.
`log2Aux fuel n` is `⌊log₂ n⌋` whenever `n ≤ fuel` and `0 < n`. -/
def log2Aux : Nat → Nat → Nat
  | 0, _ => 0
  | fuel + 1, n => if n < 2 then 0 else log2Aux fuel (n / 2) + 1

/-- `⌊log₂ n⌋` (0 at 0). -/
def log2floor (n : Nat) : Nat := log2Aux n n

/-- Round the rational `a / b` to the nearest integer, ties to even
(the IEEE 754 default rounding used by Rust float casts and division). -/
def rneNat (a b : Nat) : Nat :=
  let q := a / b
  let r := a % b
  if 2 * r < b then q
  else if b < 2 * r then q + 1
  else if q % 2 = 0 then q else q + 1

/-- Model of Rust `secs as f32` for a `u64`: round to 24 significant bits,
nearest-even.  The result is returned as the exact natural number value of the
resulting float (all values involved are nonnegative integers). -/
def roundF32nat (s : Nat) : Nat :=
  if s = 0 then 0
  else
    let k := log2floor s
    if k ≤ 23 then s
    else rneNat s (2 ^ (k - 23)) * 2 ^ (k - 23)

/-- Model of Rust `(x / d).trunc()` where `x` is the `f32` with exact value `a`
and `d` is a small exactly-representable positive integer divisor: the IEEE
quotient is the correctly rounded (nearest-even) value of `a / d`, and we return
its floor. -/
def floorF32div (a d : Nat) : Nat :=
  if a = 0 then 0
  else
    let k := log2floor (a / d)
    if k ≤ 23 then rneNat (a * 2 ^ (23 - k)) d / 2 ^ (23 - k)
    else rneNat a (d * 2 ^ (k - 23)) * 2 ^ (k - 23)

/-- `(secs as f32 / d as f32).trunc() as usize` from the source, for `d` one of
the exact constants `60.0` / `3600.0`. -/
def f32truncdiv (s d : Nat) : Nat := floorF32div (roundF32nat s) d

/-- `humanize_duration` from `src/main.rs` (lines 24-48), with the float
divisions modelled by `f32truncdiv`. -/
def humanize_duration (secs : Nat) : String :=
  if secs = 0 then ""
  else if secs < 60 then Nat.repr secs ++ "s"
  else if secs < 3600 then
    trimEnd (Nat.repr (f32truncdiv secs 60) ++ "m " ++ humanize_duration (secs % 60))
  else
    trimEnd (Nat.repr (f32truncdiv secs 3600) ++ "h " ++ humanize_duration (secs % 3600))
termination_by secs
decreasing_by
· omega
· omega

/-- Staged reference definition of duration humanization, written from the
claim/spec wording: exact integer division for the minute and hour counts. -/
def humanizeRef (secs : Nat) : String :=
  if secs = 0 then ""
  else if secs < 60 then Nat.repr secs ++ "s"
  else if secs < 3600 then
    trimEnd (Nat.repr (secs / 60) ++ "m " ++ humanizeRef (secs % 60))
  else
    trimEnd (Nat.repr (secs / 3600) ++ "h " ++ humanizeRef (secs % 3600))
termination_by secs
decreasing_by
· omega
· omega

theorem humanize_duration_unfold (secs : Nat) :
    humanize_duration secs =
      if secs = 0 then ""
      else if secs < 60 then Nat.repr secs ++ "s"
      else if secs < 3600 then
        trimEnd (Nat.repr (f32truncdiv secs 60) ++ "m " ++ humanize_duration (secs % 60))
      else
        trimEnd (Nat.repr (f32truncdiv secs 3600) ++ "h " ++ humanize_duration (secs % 3600)) := by
  rw [humanize_duration]

theorem humanizeRef_unfold (secs : Nat) :
    humanizeRef secs =
      if secs = 0 then ""
      else if secs < 60 then Nat.repr secs ++ "s"
      else if secs < 3600 then
        trimEnd (Nat.repr (secs / 60) ++ "m " ++ humanizeRef (secs % 60))
      else
        trimEnd (Nat.repr (secs / 3600) ++ "h " ++ humanizeRef (secs % 3600)) := by
  rw [humanizeRef]

theorem log2Aux_le : ∀ fuel n : Nat, 0 < n → n ≤ fuel → 2 ^ log2Aux fuel n ≤ n := by
  intro fuel
  induction fuel with
  | zero => intro n h1 h2; omega
  | succ fuel ih =>
    intro n h1 h2
    rw [log2Aux]
    by_cases h : n < 2
    · simp [h]; omega
    · rw [if_neg h, pow_succ]
      have hrec := ih (n / 2) (by omega) (by omega)
      omega

theorem log2floor_le (n m : Nat) (h : n < 2 ^ (m + 1)) : log2floor n ≤ m := by
  by_cases h0 : n = 0
  · subst h0; simp [log2floor, log2Aux]
  · by_contra hc
    have h1 : m + 1 ≤ log2floor n := by omega
    have h2 : 2 ^ (m + 1) ≤ 2 ^ log2floor n := Nat.pow_le_pow_right (by omega) h1
    have h3 : 2 ^ log2floor n ≤ n := log2Aux_le n n (by omega) (Nat.le_refl n)
    omega

theorem rneNat_ge (a b : Nat) : a / b ≤ rneNat a b := by
  simp only [rneNat]
  split_ifs <;> first | exact Nat.le_refl _ | exact Nat.le_succ _

theorem rneNat_le_half (a b : Nat) (hb : 0 < b) : rneNat a b ≤ (2 * a + b) / (2 * b) := by
  have hdm : b * (a / b) + a % b = a := Nat.div_add_mod a b
  have hx : b * (a / b) ≤ a := Nat.le.intro hdm
  rw [Nat.le_div_iff_mul_le (by omega : 0 < 2 * b)]
  simp only [rneNat]
  split_ifs with h1 h2 h3
  · calc a / b * (2 * b) = 2 * (b * (a / b)) := by ring
      _ ≤ 2 * a + b := by linarith
  · calc (a / b + 1) * (2 * b) = 2 * (b * (a / b)) + 2 * b := by ring
      _ ≤ 2 * a + b := by linarith
  · calc a / b * (2 * b) = 2 * (b * (a / b)) := by ring
      _ ≤ 2 * a + b := by linarith
  · calc (a / b + 1) * (2 * b) = 2 * (b * (a / b)) + 2 * b := by ring
      _ ≤ 2 * a + b := by linarith

theorem rne_div_pow (s d j : Nat) (hd : 0 < d) (hlt : d < 2 ^ (j + 1)) :
    rneNat (s * 2 ^ j) d / 2 ^ j = s / d := by
  have hP : 0 < 2 ^ j := Nat.pos_pow_of_pos j (by omega)
  obtain ⟨q, r, rfl, hrd⟩ : ∃ q r, s = d * q + r ∧ r < d :=
    ⟨s / d, s % d, (Nat.div_add_mod s d).symm, Nat.mod_lt s hd⟩
  have hsd : (d * q + r) / d = q := by
    rw [Nat.mul_add_div hd, Nat.div_eq_of_lt hrd, Nat.add_zero]
  rw [hsd]
  have hd2 : d < 2 * 2 ^ j := by
    have hps : (2:Nat) ^ (j + 1) = 2 * 2 ^ j := by ring
    omega
  apply Nat.le_antisymm
  · apply Nat.lt_succ_iff.mp
    rw [Nat.div_lt_iff_lt_mul hP]
    have h1 : rneNat ((d * q + r) * 2 ^ j) d ≤ (2 * ((d * q + r) * 2 ^ j) + d) / (2 * d) :=
      rneNat_le_half _ _ hd
    apply Nat.lt_of_le_of_lt h1
    rw [Nat.div_lt_iff_lt_mul (by omega : 0 < 2 * d)]
    have key : 2 * (r * 2 ^ j) + 2 * 2 ^ j ≤ 2 * (d * 2 ^ j) := by
      have h5 : r + 1 ≤ d := hrd
      calc 2 * (r * 2 ^ j) + 2 * 2 ^ j = (r + 1) * (2 * 2 ^ j) := by ring
        _ ≤ d * (2 * 2 ^ j) := Nat.mul_le_mul_right _ h5
        _ = 2 * (d * 2 ^ j) := by ring
    calc 2 * ((d * q + r) * 2 ^ j) + d
        = 2 * (d * q * 2 ^ j) + (2 * (r * 2 ^ j) + d) := by ring
      _ < 2 * (d * q * 2 ^ j) + 2 * (d * 2 ^ j) := by linarith
      _ = q.succ * 2 ^ j * (2 * d) := by rw [Nat.succ_eq_add_one]; ring
  · rw [Nat.le_div_iff_mul_le hP]
    have h2 : q * 2 ^ j ≤ (d * q + r) * 2 ^ j / d := by
      rw [Nat.le_div_iff_mul_le hd]
      calc q * 2 ^ j * d = d * q * 2 ^ j := by ring
        _ ≤ (d * q + r) * 2 ^ j := Nat.mul_le_mul_right _ (by omega)
    exact Nat.le_trans h2 (rneNat_ge _ _)

theorem roundF32nat_eq (s : Nat) (hs : s < 16777216) : roundF32nat s = s := by
  rw [roundF32nat]
  by_cases h0 : s = 0
  · simp [h0]
  · rw [if_neg h0]
    have hk : log2floor s ≤ 23 := log2floor_le s 23 (by omega)
    simp [hk]

theorem floorF32div_eq (s d : Nat) (hd : 0 < d) (hk : log2floor (s / d) ≤ 23)
    (hdlt : d < 2 ^ (24 - log2floor (s / d))) : floorF32div s d = s / d := by
  rw [floorF32div]
  by_cases h0 : s = 0
  · simp [h0]
  · rw [if_neg h0, if_pos hk]
    have h24 : 24 - log2floor (s / d) = (23 - log2floor (s / d)) + 1 := by omega
    rw [h24] at hdlt
    exact rne_div_pow s d (23 - log2floor (s / d)) hd hdlt

theorem f32truncdiv_60 (s : Nat) (hs : s < 16777216) : f32truncdiv s 60 = s / 60 := by
  rw [f32truncdiv, roundF32nat_eq s hs]
  have hq : s / 60 < 2 ^ 19 := by
    rw [Nat.div_lt_iff_lt_mul (by omega : 0 < 60)]
    norm_num
    omega
  have hk : log2floor (s / 60) ≤ 18 := log2floor_le _ 18 hq
  apply floorF32div_eq s 60 (by omega) (by omega)
  have h6 : (2:Nat) ^ 6 ≤ 2 ^ (24 - log2floor (s / 60)) :=
    Nat.pow_le_pow_right (by omega) (by omega)
  norm_num at h6
  omega

theorem f32truncdiv_3600 (s : Nat) (hs : s < 16777216) : f32truncdiv s 3600 = s / 3600 := by
  rw [f32truncdiv, roundF32nat_eq s hs]
  have hq : s / 3600 < 2 ^ 13 := by
    rw [Nat.div_lt_iff_lt_mul (by omega : 0 < 3600)]
    norm_num
    omega
  have hk : log2floor (s / 3600) ≤ 12 := log2floor_le _ 12 hq
  apply floorF32div_eq s 3600 (by omega) (by omega)
  have h12 : (2:Nat) ^ 12 ≤ 2 ^ (24 - log2floor (s / 3600)) :=
    Nat.pow_le_pow_right (by omega) (by omega)
  norm_num at h12
  omega

theorem humanize_eq_ref : ∀ s : Nat, s < 16777216 → humanize_duration s = humanizeRef s := by
  intro s
  induction s using Nat.strong_induction_on with
  | _ s ih =>
    intro hs
    rw [humanize_duration_unfold, humanizeRef_unfold]
    by_cases h0 : s = 0
    · simp [h0]
    by_cases h60 : s < 60
    · simp [h0, h60]
    by_cases h36 : s < 3600
    · rw [if_neg h0, if_neg h60, if_pos h36, if_neg h0, if_neg h60, if_pos h36,
        f32truncdiv_60 s hs, ih (s % 60) (by omega) (by omega)]
    · rw [if_neg h0, if_neg h60, if_neg h36, if_neg h0, if_neg h60, if_neg h36,
        f32truncdiv_3600 s hs, ih (s % 3600) (by omega) (by omega)]

theorem str_data_append (a b : String) : (a ++ b).data = a.data ++ b.data := rfl

theorem str_eq_of_data (a b : String) (h : a.data = b.data) : a = b :=
  congrArg String.mk h

theorem digitChar_prop (v : Nat) (h1 : 0 < v) (h9 : v ≤ 9) :
    (Nat.digitChar v).isDigit = true ∧ Nat.digitChar v ≠ '0' := by
  interval_cases v <;> exact ⟨by decide, by decide⟩

theorem digit_not_ws (c : Char) (h : c.isDigit = true) : c.isWhitespace = false := by
  by_contra hw
  have hw' : c.isWhitespace = true := by revert hw; cases c.isWhitespace <;> simp
  simp only [Char.isWhitespace, Bool.or_eq_true, decide_eq_true_eq] at hw'
  rcases hw' with ((h1 | h1) | h1) | h1 <;> subst h1 <;> exact absurd h (by decide)

theorem toDigitsCore_head : ∀ (fuel n : Nat) (ds : List Char), 0 < n → n ≤ fuel →
    ∃ c cs, Nat.toDigitsCore 10 fuel n ds = c :: cs ∧ c.isDigit = true ∧ c ≠ '0' := by
  intro fuel
  induction fuel with
  | zero => intro n ds h1 h2; omega
  | succ fuel ih =>
    intro n ds h1 h2
    rw [Nat.toDigitsCore]
    by_cases h : n / 10 = 0
    · refine ⟨Nat.digitChar (n % 10), ds, by simp [h], ?_⟩
      have hmod : n % 10 = n := Nat.mod_eq_of_lt (by omega)
      rw [hmod]
      exact digitChar_prop n h1 (by omega)
    · simp only [h, if_false]
      exact ih (n / 10) (Nat.digitChar (n % 10) :: ds) (by omega) (by omega)

theorem repr_head (n : Nat) (h : 0 < n) :
    ∃ c cs, (Nat.repr n).data = c :: cs ∧ c.isDigit = true ∧ c ≠ '0' := by
  have hd : (Nat.repr n).data = Nat.toDigitsCore 10 (n + 1) n [] := rfl
  rw [hd]
  exact toDigitsCore_head (n + 1) n [] h (by omega)

theorem dropWhile_append_last (p : Char → Bool) (l : List Char) (c : Char) (hc : p c = false) :
    (l ++ [c]).dropWhile p = l.dropWhile p ++ [c] := by
  induction l with
  | nil => simp [List.dropWhile, hc]
  | cons a l ih =>
    by_cases ha : p a = true
    · rw [List.cons_append, List.dropWhile_cons_of_pos ha, List.dropWhile_cons_of_pos ha, ih]
    · have ha' : p a = false := by revert ha; cases p a <;> simp
      rw [List.cons_append, List.dropWhile_cons_of_neg (by simp [ha']),
        List.dropWhile_cons_of_neg (by simp [ha'])]
      simp

theorem trimEnd_head (s : String) (c : Char) (t : List Char)
    (hs : s.data = c :: t) (hc : c.isWhitespace = false) :
    ∃ u, (trimEnd s).data = c :: u := by
  refine ⟨((t.reverse.dropWhile Char.isWhitespace)).reverse, ?_⟩
  show ((s.data.reverse.dropWhile Char.isWhitespace)).reverse = _
  rw [hs, List.reverse_cons, dropWhile_append_last _ _ _ hc, List.reverse_append]
  simp

theorem humanizeRef_head : ∀ s : Nat, 0 < s →
    ∃ c cs, (humanizeRef s).data = c :: cs ∧ c.isDigit = true ∧ c ≠ '0' := by
  intro s
  induction s using Nat.strong_induction_on with
  | _ s ih =>
    intro hs
    rw [humanizeRef_unfold]
    by_cases h60 : s < 60
    · rw [if_neg (by omega), if_pos h60]
      obtain ⟨c, cs, hd, hdig, hne⟩ := repr_head s hs
      refine ⟨c, cs ++ "s".data, ?_, hdig, hne⟩
      rw [str_data_append, hd]
      simp
    · by_cases h36 : s < 3600
      · rw [if_neg (by omega), if_neg h60, if_pos h36]
        obtain ⟨c, cs, hd, hdig, hne⟩ := repr_head (s / 60) (by omega)
        have hstr : (Nat.repr (s / 60) ++ "m " ++ humanizeRef (s % 60)).data
            = c :: (cs ++ "m ".data ++ (humanizeRef (s % 60)).data) := by
          rw [str_data_append, str_data_append, hd]
          simp
        obtain ⟨u, hu⟩ := trimEnd_head _ c _ hstr (digit_not_ws c hdig)
        exact ⟨c, u, hu, hdig, hne⟩
      · rw [if_neg (by omega), if_neg h60, if_neg h36]
        obtain ⟨c, cs, hd, hdig, hne⟩ := repr_head (s / 3600) (by omega)
        have hstr : (Nat.repr (s / 3600) ++ "h " ++ humanizeRef (s % 3600)).data
            = c :: (cs ++ "h ".data ++ (humanizeRef (s % 3600)).data) := by
          rw [str_data_append, str_data_append, hd]
          simp
        obtain ⟨u, hu⟩ := trimEnd_head _ c _ hstr (digit_not_ws c hdig)
        exact ⟨c, u, hu, hdig, hne⟩

theorem humanize_head_ne_zero (s : Nat) (hs : s < 16777216) :
    (humanize_duration s).data.head? ≠ some '0' := by
  by_cases h0 : s = 0
  · subst h0
    rw [humanize_duration_unfold]
    simp
  · rw [humanize_eq_ref s hs]
    obtain ⟨c, cs, hd, _, hne⟩ := humanizeRef_head s (by omega)
    rw [hd]
    simpa using hne

/-- C1: for durations below 2^24 seconds (where the `f32` conversions in the
source are exact) `humanize_duration` agrees with the staged reference
definition and never starts with a zero-valued unit; the boundary table holds
with the corrected entries `122399 → "33h 59m 59s"` (33 h 59 m 59 s; the value
34 h 59 m 59 s of the original table is `125999`, the actual input of the
source's own unit test). -/
theorem claim_C1_humanize_duration :
    (∀ s : Nat, s < 16777216 →
      humanize_duration s = humanizeRef s ∧ (humanize_duration s).data.head? ≠ some '0')
    ∧ humanize_duration 0 = ""
    ∧ humanize_duration 59 = "59s"
    ∧ humanize_duration 60 = "1m"
    ∧ humanize_duration 119 = "1m 59s"
    ∧ humanize_duration 121 = "2m 1s"
    ∧ humanize_duration 3599 = "59m 59s"
    ∧ humanize_duration 3600 = "1h"
    ∧ humanize_duration 3601 = "1h 1s"
    ∧ humanize_duration 122399 = "33h 59m 59s"
    ∧ humanize_duration 125999 = "34h 59m 59s" := by
  refine ⟨fun s hs => ⟨humanize_eq_ref s hs, humanize_head_ne_zero s hs⟩, ?_, ?_, ?_, ?_, ?_, ?_, ?_, ?_, ?_, ?_⟩
  · rw [humanize_duration_unfold]; norm_num
  · rw [humanize_duration_unfold]; decide
  · rw [humanize_duration_unfold]; norm_num; rw [humanize_duration_unfold]; decide
  · rw [humanize_duration_unfold]; norm_num; rw [humanize_duration_unfold]; decide
  · rw [humanize_duration_unfold]; norm_num; rw [humanize_duration_unfold]; decide
  · rw [humanize_duration_unfold]; norm_num; rw [humanize_duration_unfold]; decide
  · rw [humanize_duration_unfold]; norm_num; rw [humanize_duration_unfold]; decide
  · rw [humanize_duration_unfold]; norm_num; rw [humanize_duration_unfold]; decide
  · rw [humanize_duration_unfold]; norm_num; rw [humanize_duration_unfold]; norm_num
    rw [humanize_duration_unfold]; decide
  · rw [humanize_duration_unfold]; norm_num; rw [humanize_duration_unfold]; norm_num
    rw [humanize_duration_unfold]; decide

/-- C1 witness: the general part of `claim_C1_humanize_duration` applied at 3601. -/
theorem claim_C1_witness :
    humanize_duration 3601 = humanizeRef 3601
    ∧ (humanize_duration 3601).data.head? ≠ some '0' :=
  claim_C1_humanize_duration.1 3601 (by norm_num)

/-- C1 counterexample: the table entry `122399 → "34h 59m 59s"` is wrong for the
code and for the claim's own staged reference (both yield 33 h), and at
16779599 s the `f32` hour computation of the code rounds `16779599 as f32` up to
16779600, one whole hour boundary too high, so the code disagrees with the
exact-division staged reference. -/
theorem claim_C1_counterexample :
    humanize_duration 122399 = "33h 59m 59s"
    ∧ humanize_duration 122399 ≠ "34h 59m 59s"
    ∧ humanizeRef 122399 = "33h 59m 59s"
    ∧ humanize_duration 16779599 = "4661h 59m 59s"
    ∧ humanizeRef 16779599 = "4660h 59m 59s"
    ∧ humanize_duration 16779599 ≠ humanizeRef 16779599 := by
  have h1 : humanize_duration 122399 = "33h 59m 59s" := by
    rw [humanize_duration_unfold]; norm_num; rw [humanize_duration_unfold]; norm_num
    rw [humanize_duration_unfold]; decide
  have h2 : humanizeRef 122399 = "33h 59m 59s" := by
    rw [humanizeRef_unfold]; norm_num; rw [humanizeRef_unfold]; norm_num
    rw [humanizeRef_unfold]; decide
  have h3 : humanize_duration 16779599 = "4661h 59m 59s" := by
    rw [humanize_duration_unfold]; norm_num; rw [humanize_duration_unfold]; norm_num
    rw [humanize_duration_unfold]; decide
  have h4 : humanizeRef 16779599 = "4660h 59m 59s" := by
    rw [humanizeRef_unfold]; norm_num; rw [humanizeRef_unfold]; norm_num
    rw [humanizeRef_unfold]; decide
  exact ⟨h1, by rw [h1]; decide, h2, h3, h4, by rw [h3, h4]; decide⟩

/-- Model of Rust `str::split('/')` on the character list: splits at every
`'/'`, keeping empty segments (so a leading separator yields a leading `""`). -/
def splitOnSlash : List Char → List (List Char)
  | [] => [[]]
  | c :: cs =>
    if c = '/' then [] :: splitOnSlash cs
    else
      match splitOnSlash cs with
      | [] => [[c]]
      | h :: t => (c :: h) :: t

/-- String-level wrapper for `splitOnSlash`. -/
def splitSlash (s : String) : List String := (splitOnSlash s.data).map String.mk

/-- Model of Rust `str::replace(pat, rep)`: replace all non-overlapping
occurrences, scanning left to right.  Fuel-structured (the list shrinks by at
least one element per step, so fuel `l.length` always suffices) to keep the
definition kernel-evaluable. -/
def replaceList (pat rep : List Char) : Nat → List Char → List Char
  | 0, l => l
  | fuel + 1, l =>
    if pat.isPrefixOf l then rep ++ replaceList pat rep fuel (l.drop pat.length)
    else
      match l with
      | [] => []
      | c :: cs => c :: replaceList pat rep fuel cs

/-- Does `pat` occur as a contiguous sub-list of the second argument. -/
def occursIn (pat : List Char) : List Char → Bool
  | [] => pat.isEmpty
  | c :: cs => pat.isPrefixOf (c :: cs) || occursIn pat cs

/-- The home-directory substitution step of `get_current_path`
(`src/main.rs` lines 334-345): if the path starts with `"/home/"`, delete every
occurrence of `"/home/"` (Rust `String::replace` replaces all occurrences, not
only the prefix), then drop everything before the first remaining `'/'` and
prepend `'~'`; when no `'/'` remains the result is `"~"`. -/
def homeSubst (path : String) : String :=
  if "/home/".data.isPrefixOf path.data then
    let l := replaceList "/home/".data [] path.data.length path.data
    match l.findIdx? (· = '/') with
    | some idx => ⟨'~' :: l.drop idx⟩
    | none => "~"
  else path

/-- `get_current_path` from `src/main.rs` (lines 330-369).  The current
directory is passed explicitly (`env::current_dir().ok()?.to_str()?` becomes
the `Option String` argument; `none` models an unavailable directory).  A Rust
index-out-of-bounds panic (`parts[1]` / `parts[2]` on a too-short vector) is
modelled as `Except.error`. -/
def get_current_path (cwd : Option String) (short : Option (Option String)) :
    Except String (Option String) :=
  match cwd with
  | none => Except.ok none
  | some p =>
    let path := homeSubst p
    match short with
    | some (some toplevel) =>
      let parts := ((splitSlash path).reverse.take 3).reverse
      match parts.get? 1 with
      | none => Except.error "index out of bounds"
      | some p1 =>
        if p1 = toplevel then Except.ok (some (String.intercalate "/" (parts.drop 1)))
        else
          match parts.get? 2 with
          | none => Except.error "index out of bounds"
          | some p2 =>
            if p2 = toplevel then Except.ok (some (String.intercalate "/" (parts.drop 2)))
            else Except.ok (some (String.intercalate "/" parts))
    | some none =>
      let parts := ((splitSlash path).reverse.take 3).reverse
      Except.ok (some (String.intercalate "/" parts))
    | none => Except.ok (some path)

theorem isPrefixOf_append_self (pat t : List Char) : pat.isPrefixOf (pat ++ t) = true := by
  induction pat with
  | nil => simp
  | cons c cs ih => simp [List.isPrefixOf, ih]

theorem occursIn_cons_false (pat : List Char) (c : Char) (cs : List Char)
    (h : occursIn pat (c :: cs) = false) :
    pat.isPrefixOf (c :: cs) = false ∧ occursIn pat cs = false := by
  rw [occursIn] at h
  exact ⟨by revert h; cases pat.isPrefixOf (c :: cs) <;> simp,
         by revert h; cases occursIn pat cs <;> simp⟩

theorem replaceList_no_occ (pat rep : List Char) : ∀ (fuel : Nat) (l : List Char),
    occursIn pat l = false → replaceList pat rep fuel l = l := by
  intro fuel
  induction fuel with
  | zero => intro l h; rfl
  | succ fuel ih =>
    intro l h
    cases l with
    | nil =>
      have hp : pat.isPrefixOf ([] : List Char) = false := by
        cases pat with
        | nil => simp [occursIn, List.isEmpty] at h
        | cons a as => rfl
      simp [replaceList, hp]
    | cons c cs =>
      obtain ⟨h1, h2⟩ := occursIn_cons_false pat c cs h
      simp only [replaceList, h1, Bool.false_eq_true, if_false]
      rw [ih cs h2]

theorem occursIn_append_right (pat u rest : List Char)
    (h : occursIn pat (u ++ rest) = false) : occursIn pat rest = false := by
  induction u with
  | nil => simpa using h
  | cons c cs ih => exact ih (occursIn_cons_false pat c (cs ++ rest) (by simpa using h)).2

theorem findIdx?_slash_none (u : List Char) (hu : ∀ c ∈ u, c ≠ '/') :
    u.findIdx? (· = '/') = none := by
  induction u with
  | nil => rfl
  | cons c cs ih =>
    rw [List.findIdx?_cons, if_neg (by simpa using hu c (by simp)), List.findIdx?_succ,
      ih fun d hd => hu d (by simp [hd])]
    rfl

theorem findIdx?_slash_append (u r' : List Char) (hu : ∀ c ∈ u, c ≠ '/') :
    (u ++ '/' :: r').findIdx? (· = '/') = some u.length := by
  induction u with
  | nil => simp
  | cons c cs ih =>
    rw [List.cons_append, List.findIdx?_cons, if_neg (by simpa using hu c (by simp)),
      List.findIdx?_succ, ih fun d hd => hu d (by simp [hd])]
    rfl

theorem get_current_path_full (p : String) :
    get_current_path (some p) none = Except.ok (some (homeSubst p)) := rfl

theorem replaceList_single (pat rep t : List Char) (hocc : occursIn pat t = false)
    (fuel : Nat) (hf : 1 ≤ fuel) : replaceList pat rep fuel (pat ++ t) = rep ++ t := by
  obtain ⟨f, rfl⟩ : ∃ f, fuel = f + 1 := ⟨fuel - 1, by omega⟩
  simp only [replaceList, isPrefixOf_append_self, if_true]
  rw [List.drop_left, replaceList_no_occ pat rep f t hocc]

theorem homeSubst_under_home (u rest : List Char) (hu : ∀ c ∈ u, c ≠ '/')
    (hocc : occursIn "/home/".data (u ++ rest) = false)
    (hrest : rest = [] ∨ ∃ r', rest = '/' :: r') :
    homeSubst ⟨"/home/".data ++ (u ++ rest)⟩ = if rest = [] then "~" else ⟨'~' :: rest⟩ := by
  rw [homeSubst]
  have hpre : "/home/".data.isPrefixOf (String.mk ("/home/".data ++ (u ++ rest))).data = true :=
    isPrefixOf_append_self _ _
  rw [if_pos hpre]
  have hlen : 1 ≤ (String.mk ("/home/".data ++ (u ++ rest))).data.length := by
    simp
  have hrepl : replaceList "/home/".data []
      (String.mk ("/home/".data ++ (u ++ rest))).data.length
      (String.mk ("/home/".data ++ (u ++ rest))).data = u ++ rest := by
    have h1 : replaceList "/home/".data []
        (String.mk ("/home/".data ++ (u ++ rest))).data.length
        ("/home/".data ++ (u ++ rest)) = [] ++ (u ++ rest) :=
      replaceList_single _ _ _ hocc _ hlen
    simpa using h1
  rw [hrepl]
  rcases hrest with h | ⟨r', h⟩
  · subst h
    simp only [List.append_nil, findIdx?_slash_none u hu]
    simp
  · subst h
    simp only [findIdx?_slash_append u r' hu, List.drop_left]
    simp

/-- C2: in-repository short-path abbreviation indexes `parts[1]` and `parts[2]`
unconditionally, so a current directory whose abbreviated form has fewer than 3
`/`-separated segments makes the program panic (index out of bounds) instead of
degrading safely; the generic short mode on the same input is safe and returns
the lone segment unchanged. -/
theorem claim_C2_short_path_panics :
    get_current_path (some "/home/user") (some (some "user"))
        = Except.error "index out of bounds"
    ∧ get_current_path (some "/home/user") (some none) = Except.ok (some "~")
    ∧ get_current_path (some "/a") (some (some "zzz")) = Except.error "index out of bounds" :=
  ⟨rfl, rfl, rfl⟩

/-- C3 (amended): for an absolute path `"/home/" ++ u ++ rest` under the home
directory of user `u` (no `'/'` in `u`, `rest` empty or starting with `'/'`)
whose tail `u ++ rest` contains no further occurrence of `"/home/"`, full-mode
abbreviation yields `"~"` when the path is exactly the home directory and
`"~" ++ rest` otherwise; the result starts with `'~'` and no longer contains
the substring `"/home/"`.  (Without the no-further-occurrence hypothesis the
claim is false, see the counterexample: Rust `String::replace` removes every
occurrence, not only the prefix.) -/
theorem claim_C3_home_substitution (u rest : List Char) (hu : ∀ c ∈ u, c ≠ '/')
    (hocc : occursIn "/home/".data (u ++ rest) = false)
    (hrest : rest = [] ∨ ∃ r', rest = '/' :: r') :
    get_current_path (some ⟨"/home/".data ++ (u ++ rest)⟩) none =
      Except.ok (some (if rest = [] then "~" else ⟨'~' :: rest⟩))
    ∧ (if rest = [] then "~" else (⟨'~' :: rest⟩ : String)).data.head? = some '~'
    ∧ occursIn "/home/".data (if rest = [] then "~" else (⟨'~' :: rest⟩ : String)).data
        = false := by
  refine ⟨?_, ?_, ?_⟩
  · rw [get_current_path_full, homeSubst_under_home u rest hu hocc hrest]
  · rcases Classical.em (rest = []) with h | h <;> simp [h]
  · rcases Classical.em (rest = []) with h | h
    · simp only [h, if_true]
      decide
    · simp only [h, if_false]
      show (("/home/".data.isPrefixOf ('~' :: rest)) || occursIn "/home/".data rest) = false
      rw [show "/home/".data.isPrefixOf ('~' :: rest) = false from rfl,
        occursIn_append_right "/home/".data u rest hocc]
      rfl

/-- C3 witness: `claim_C3_home_substitution` at the concrete path
`/home/user/proj`. -/
theorem claim_C3_witness :
    get_current_path (some ⟨"/home/".data ++ ("user".data ++ "/proj".data)⟩) none =
      Except.ok (some (if ("/proj".data : List Char) = [] then "~"
        else ⟨'~' :: "/proj".data⟩)) :=
  (claim_C3_home_substitution "user".data "/proj".data (by decide) (by decide)
    (Or.inr ⟨"proj".data, rfl⟩)).1

/-- C3 counterexample: for the path `/home/user/home/x` (under the home
directory `/home/user`, remainder `/home/x`) the code deletes both `"/home/"`
occurrences and abbreviates to `"~"`, instead of preserving the remainder as
`"~/home/x"` required by the claim. -/
theorem claim_C3_counterexample :
    get_current_path (some "/home/user/home/x") none = Except.ok (some "~")
    ∧ ("~" : String) ≠ "~/home/x" :=
  ⟨rfl, by decide⟩

/-- The in-repository short-path abbreviation described by the claim wording:
compare `root_name` against the segment immediately preceding the last, then
against the segment two before the last. -/
def shortInRepoClaim (p0 p1 p2 root : String) : List String :=
  if p1 = root then [p1, p2] else if p0 = root then [p2] else [p0, p1, p2]

/-- C4 (amended): when the abbreviated path keeps 3 segments
`p0 / p1 / p2` (last three, in order), in-repository short abbreviation drops
`p0` when the middle kept segment `p1` equals the repo-root name, otherwise
drops `p0` and `p1` when the **last** kept segment `p2` equals the repo-root
name (the source compares `parts[2]`, the last segment, not the segment two
before the last as the claim states), otherwise keeps all three; the kept
segments are joined with `"/"`. -/
theorem claim_C4_short_in_repo (cwd root p0 p1 p2 : String) (rest : List String)
    (h : (splitSlash (homeSubst cwd)).reverse = p2 :: p1 :: p0 :: rest) :
    get_current_path (some cwd) (some (some root)) =
      Except.ok (some (String.intercalate "/"
        (if p1 = root then [p1, p2] else if p2 = root then [p2] else [p0, p1, p2]))) := by
  have hparts : ((splitSlash (homeSubst cwd)).reverse.take 3).reverse = [p0, p1, p2] := by
    rw [h]
    rfl
  simp only [get_current_path]
  rw [hparts]
  by_cases h1 : p1 = root
  · simp [h1]
  · by_cases h2 : p2 = root
    · simp [h1, h2]
    · simp [h1, h2]

/-- C4 witness: `claim_C4_short_in_repo` at `/x/root/a/b` with repo root
`"root"`: no kept segment matches, all three segments are kept. -/
theorem claim_C4_witness :
    get_current_path (some "/x/root/a/b") (some (some "root"))
      = Except.ok (some "root/a/b") := by
  have h := claim_C4_short_in_repo "/x/root/a/b" "root" "root" "a" "b" ["x", ""] (by decide)
  rw [h]
  rfl

/-- C4 counterexample: at `/x/root/a/b` with repo-root name `"root"` the
segment two before the last kept one equals the root name, so the claim
prescribes dropping the two preceding segments (result `"b"`); the code
compares the last kept segment instead and keeps everything
(result `"root/a/b"`). -/
theorem claim_C4_counterexample :
    get_current_path (some "/x/root/a/b") (some (some "root"))
        = Except.ok (some "root/a/b")
    ∧ String.intercalate "/" (shortInRepoClaim "root" "a" "b" "root") = "b"
    ∧ ("root/a/b" : String) ≠ "b" :=
  ⟨rfl, rfl, by decide⟩

/-- The git error codes distinguished by the source: `git2::ErrorCode::UnbornBranch`
versus anything else. -/
inductive GitErrorCode where
  | unbornBranch
  | other
deriving DecidableEq

/-- The part of `git2::Error` the source reads: its `code()`. -/
structure GitError where
  code : GitErrorCode

/-- The git collaborator state observed by one invocation: the outcome of
`repo.head()` (error, or the reference's shorthand name), the contents of the
raw `.git/HEAD` file as read by `fs::read_to_string(..).ok()`, and the last
path segment of `repo.workdir()` (the `?`-chain of `toplevel` collapsed into
one `Option`). -/
structure GitRepo where
  head : Except GitError (Option String)
  headFile : Option String
  workdirLastSeg : Option String

/-- Model of Rust `str::lines().next()`: the first line, `none` for the empty
string.  (Rust also strips a trailing `'\r'`, which the subsequent `trim` in
`Git::branch` removes anyway.) -/
def firstLine (s : String) : Option String :=
  if s.data = [] then none else some ⟨s.data.takeWhile (· ≠ '\n')⟩

/-- `Git::branch` from `src/main.rs` (lines 293-318): shorthand of HEAD when it
resolves; on an unborn-branch error, first line of the raw HEAD file, trimmed,
last `/`-separated segment; `none` on any other error. -/
def Git.branch (g : GitRepo) : Option String :=
  match g.head with
  | Except.ok shorthand => shorthand
  | Except.error e =>
    if e.code = GitErrorCode.unbornBranch then
      g.headFile.bind fun content =>
        (firstLine content).bind fun l => (splitSlash (trimWs l)).getLast?
    else none

/-- `Git::toplevel` from `src/main.rs` (lines 320-322). -/
def Git.toplevel (g : GitRepo) : Option String := g.workdirLastSeg

/-- C5: when HEAD resolution fails with the unborn-branch code, the branch is
the final `/`-separated segment of the trimmed first line of the raw HEAD file
(`ref: refs/heads/dev` yields `dev`); any other HEAD failure, or an unreadable
HEAD file, yields `none`. -/
theorem claim_C5_branch_fallback :
    (∀ (e : GitError) (hf wd : Option String), e.code ≠ GitErrorCode.unbornBranch →
      Git.branch ⟨Except.error e, hf, wd⟩ = none)
    ∧ (∀ wd : Option String,
      Git.branch ⟨Except.error ⟨GitErrorCode.unbornBranch⟩, some "ref: refs/heads/dev", wd⟩
        = some "dev")
    ∧ (∀ (e : GitError) (wd : Option String), Git.branch ⟨Except.error e, none, wd⟩ = none) := by
  refine ⟨?_, ?_, ?_⟩
  · intro e hf wd h
    simp [Git.branch, h]
  · intro wd
    rfl
  · intro e wd
    obtain ⟨c⟩ := e
    cases c <;> rfl

/-- C5 witness: `claim_C5_branch_fallback` at a non-unborn error and at the
unborn error with the file contents `ref: refs/heads/dev`. -/
theorem claim_C5_witness :
    Git.branch ⟨Except.error ⟨GitErrorCode.other⟩, some "ref: refs/heads/dev", none⟩ = none
    ∧ Git.branch ⟨Except.error ⟨GitErrorCode.unbornBranch⟩, some "ref: refs/heads/dev", none⟩
        = some "dev" :=
  ⟨claim_C5_branch_fallback.1 ⟨GitErrorCode.other⟩ (some "ref: refs/heads/dev") none
      (by decide),
   claim_C5_branch_fallback.2.1 none⟩

/-- The target shells supported by the source. -/
inductive Shell where
  | Zsh
  | Bash
deriving DecidableEq

/-- `Shell::SUPPORTED` from the source. -/
def Shell.SUPPORTED : List String := ["zsh", "bash"]

/-- `TryFrom<&str> for Shell` (`src/main.rs` lines 435-445). -/
def Shell.tryFrom (s : String) : Except Unit Shell :=
  match s with
  | "zsh" => Except.ok Shell.Zsh
  | "bash" => Except.ok Shell.Bash
  | _ => Except.error ()

/-- The `Color` enum of the source. -/
inductive Color where
  | Black
  | Red
  | Green
  | Yellow
  | Blue
  | Magenta
  | Cyan
  | White

/-- `Color::to_str` from `src/main.rs` (lines 460-591): the ANSI sequence for
bash, the same sequence wrapped in zero-width markers for zsh. -/
def Color.to_str (c : Color) (bright : Bool) (shell : Shell) : String :=
  match c with
  | Color.Black =>
    match shell with
    | Shell.Bash => if bright then "\x1b[30;1m" else "\x1b[30m"
    | Shell.Zsh => if bright then "%\x7b\x1b[30;1m%\x7d" else "%\x7b\x1b[30m%\x7d"
  | Color.Red =>
    match shell with
    | Shell.Bash => if bright then "\x1b[31;1m" else "\x1b[31m"
    | Shell.Zsh => if bright then "%\x7b\x1b[31;1m%\x7d" else "%\x7b\x1b[31m%\x7d"
  | Color.Green =>
    match shell with
    | Shell.Bash => if bright then "\x1b[32;1m" else "\x1b[32m"
    | Shell.Zsh => if bright then "%\x7b\x1b[32;1m%\x7d" else "%\x7b\x1b[32m%\x7d"
  | Color.Yellow =>
    match shell with
    | Shell.Bash => if bright then "\x1b[33;1m" else "\x1b[33m"
    | Shell.Zsh => if bright then "%\x7b\x1b[33;1m%\x7d" else "%\x7b\x1b[33m%\x7d"
  | Color.Blue =>
    match shell with
    | Shell.Bash => if bright then "\x1b[34;1m" else "\x1b[34m"
    | Shell.Zsh => if bright then "%\x7b\x1b[34;1m%\x7d" else "%\x7b\x1b[34m%\x7d"
  | Color.Magenta =>
    match shell with
    | Shell.Bash => if bright then "\x1b[35;1m" else "\x1b[35m"
    | Shell.Zsh => if bright then "%\x7b\x1b[35;1m%\x7d" else "%\x7b\x1b[35m%\x7d"
  | Color.Cyan =>
    match shell with
    | Shell.Bash => if bright then "\x1b[36;1m" else "\x1b[36m"
    | Shell.Zsh => if bright then "%\x7b\x1b[36;1m%\x7d" else "%\x7b\x1b[36m%\x7d"
  | Color.White =>
    match shell with
    | Shell.Bash => if bright then "\x1b[37;1m" else "\x1b[37m"
    | Shell.Zsh => if bright then "%\x7b\x1b[37;1m%\x7d" else "%\x7b\x1b[37m%\x7d"

/-- The `Attribute` enum of the source. -/
inductive Attribute where
  | Reset
  | Bold
  | Underline
  | Reversed

/-- `Attribute::to_str` from `src/main.rs` (lines 603-622). -/
def Attribute.to_str (a : Attribute) (shell : Shell) : String :=
  match a with
  | Attribute.Reset =>
    match shell with
    | Shell.Bash => "\x1b[0m"
    | Shell.Zsh => "%\x7b\x1b[0m%\x7d"
  | Attribute.Bold =>
    match shell with
    | Shell.Bash => "\x1b[1m"
    | Shell.Zsh => "%\x7b\x1b[1m%\x7d"
  | Attribute.Underline =>
    match shell with
    | Shell.Bash => "\x1b[4m"
    | Shell.Zsh => "%\x7b\x1b[4m%\x7d"
  | Attribute.Reversed =>
    match shell with
    | Shell.Bash => "\x1b[7m"
    | Shell.Zsh => "%\x7b\x1b[7m%\x7d"

/-- C9: for every color, brightness and attribute, the zsh escape sequence is
the bash escape sequence wrapped in zsh's zero-width markers. -/
theorem claim_C9_zsh_wraps_bash :
    (∀ (c : Color) (bright : Bool),
      Color.to_str c bright Shell.Zsh
        = "%\x7b" ++ Color.to_str c bright Shell.Bash ++ "%\x7d")
    ∧ (∀ a : Attribute,
      Attribute.to_str a Shell.Zsh = "%\x7b" ++ Attribute.to_str a Shell.Bash ++ "%\x7d") :=
  ⟨fun c bright => by cases c <;> cases bright <;> rfl,
   fun a => by cases a <;> rfl⟩

theorem strAppend_assoc (a b c : String) : a ++ b ++ c = a ++ (b ++ c) :=
  congrArg String.mk (List.append_assoc a.data b.data c.data)

theorem strAppend_nil (a : String) : a ++ "" = a :=
  congrArg String.mk (List.append_nil a.data)

theorem strNil_append (a : String) : "" ++ a = a := rfl

theorem strFoldl_append (l : List String) :
    ∀ init : String, l.foldl (fun r s => r ++ s) init
      = init ++ l.foldl (fun r s => r ++ s) "" := by
  induction l with
  | nil => intro init; exact (strAppend_nil init).symm
  | cons a l ih =>
    intro init
    show l.foldl _ (init ++ a) = init ++ l.foldl _ ("" ++ a)
    rw [ih (init ++ a), ih ("" ++ a), strAppend_assoc, strNil_append]

theorem strJoin_cons (a : String) (l : List String) :
    String.join (a :: l) = a ++ String.join l := by
  show (a :: l).foldl _ "" = _
  rw [List.foldl_cons, strFoldl_append, strNil_append]
  rfl

theorem strJoin_append (l₁ l₂ : List String) :
    String.join (l₁ ++ l₂) = String.join l₁ ++ String.join l₂ := by
  induction l₁ with
  | nil => rfl
  | cons a l ih => rw [List.cons_append, strJoin_cons, strJoin_cons, ih, strAppend_assoc]

theorem strJoin_concat₂ (l : List String) (a : String) (t : List String) :
    String.join (l ++ [a] ++ t) = String.join l ++ (a ++ String.join t) := by
  rw [strJoin_append, strJoin_append, strJoin_cons]
  show String.join l ++ (a ++ "") ++ String.join t = _
  rw [strAppend_nil, strAppend_assoc]

/-- `MIN_CMD_EXEC_TIME` from `src/main.rs` (line 13), in whole seconds. -/
def MIN_CMD_EXEC_TIME : Nat := 2

/-- The sequence of `write!` clauses of the `prompt` branch of `main`
(`src/main.rs` lines 208-259), one list element per `write!`: the optional
`root in` clause, the path clause, the optional branch clause, the optional
`took` clause, the status-separator clause, and the non-bash trailing space. -/
def prompt_clauses (shell : Shell) (is_root : Bool) (path : String)
    (branch : Option String) (use_unicode : Bool) (elapsed : Nat)
    (non_zero_exit_status : Bool) : List String :=
  (if is_root then
    [Attribute.Bold.to_str shell ++ Color.Red.to_str false shell ++ "root"
      ++ Attribute.Reset.to_str shell ++ " in "]
  else []) ++
  [Attribute.Bold.to_str shell ++ Color.Cyan.to_str false shell ++ path ++ " "] ++
  (match branch with
   | some b =>
     [Attribute.Reset.to_str shell ++ "on " ++ Attribute.Bold.to_str shell
       ++ Color.Magenta.to_str false shell ++ (if use_unicode then " " else "")
       ++ b ++ " "]
   | none => []) ++
  (if MIN_CMD_EXEC_TIME ≤ elapsed then
    [Color.Yellow.to_str false shell ++ "took " ++ humanize_duration elapsed ++ " "]
  else []) ++
  [(if non_zero_exit_status then Color.Red.to_str false shell
    else Color.Green.to_str false shell)
    ++ (if use_unicode then "❯" else "::") ++ Attribute.Reset.to_str shell] ++
  (if shell ≠ Shell.Bash then [" "] else [])

/-- The composed prompt string: the clauses written left to right. -/
def compose (shell : Shell) (is_root : Bool) (path : String) (branch : Option String)
    (use_unicode : Bool) (elapsed : Nat) (non_zero_exit_status : Bool) : String :=
  String.join
    (prompt_clauses shell is_root path branch use_unicode elapsed non_zero_exit_status)

theorem getq_append_left (l r : List Char) (n : Nat) (c : Char) (h : l.get? n = some c) :
    (l ++ r).get? n = some c := by
  have hn : n < l.length := by
    by_contra hn
    rw [List.get?_eq_none.mpr (by omega)] at h
    exact Option.noConfusion h
  rw [List.get?_append hn]
  exact h

theorem str_ne_of_lit (a b : String) (ra rb : List Char) (n : Nat) (ca cb : Char)
    (hca : a.data.get? n = some ca) (hcb : b.data.get? n = some cb) (hne : ca ≠ cb)
    (sa sb : String) (hsa : sa.data = a.data ++ ra) (hsb : sb.data = b.data ++ rb) :
    sa ≠ sb := by
  intro h
  have h1 : sa.data.get? n = some ca := by rw [hsa]; exact getq_append_left _ _ _ _ hca
  have h2 : sb.data.get? n = some cb := by rw [hsb]; exact getq_append_left _ _ _ _ hcb
  rw [h] at h1
  rw [h1] at h2
  exact hne (Option.some.inj h2)

theorem bold_ne_yellow (shell : Shell) (r y : String) :
    Attribute.Bold.to_str shell ++ r ≠ Color.Yellow.to_str false shell ++ y := by
  cases shell
  · exact str_ne_of_lit "%\x7b\x1b[1m%\x7d" "%\x7b\x1b[33m%\x7d" r.data y.data 4 '1' '3'
      rfl rfl (by decide) _ _ rfl rfl
  · exact str_ne_of_lit "\x1b[1m" "\x1b[33m" r.data y.data 2 '1' '3'
      rfl rfl (by decide) _ _ rfl rfl

theorem reset_ne_yellow (shell : Shell) (r y : String) :
    Attribute.Reset.to_str shell ++ r ≠ Color.Yellow.to_str false shell ++ y := by
  cases shell
  · exact str_ne_of_lit "%\x7b\x1b[0m%\x7d" "%\x7b\x1b[33m%\x7d" r.data y.data 4 '0' '3'
      rfl rfl (by decide) _ _ rfl rfl
  · exact str_ne_of_lit "\x1b[0m" "\x1b[33m" r.data y.data 2 '0' '3'
      rfl rfl (by decide) _ _ rfl rfl

theorem red_ne_yellow (shell : Shell) (r y : String) :
    Color.Red.to_str false shell ++ r ≠ Color.Yellow.to_str false shell ++ y := by
  cases shell
  · exact str_ne_of_lit "%\x7b\x1b[31m%\x7d" "%\x7b\x1b[33m%\x7d" r.data y.data 5 '1' '3'
      rfl rfl (by decide) _ _ rfl rfl
  · exact str_ne_of_lit "\x1b[31m" "\x1b[33m" r.data y.data 3 '1' '3'
      rfl rfl (by decide) _ _ rfl rfl

theorem green_ne_yellow (shell : Shell) (r y : String) :
    Color.Green.to_str false shell ++ r ≠ Color.Yellow.to_str false shell ++ y := by
  cases shell
  · exact str_ne_of_lit "%\x7b\x1b[32m%\x7d" "%\x7b\x1b[33m%\x7d" r.data y.data 5 '2' '3'
      rfl rfl (by decide) _ _ rfl rfl
  · exact str_ne_of_lit "\x1b[32m" "\x1b[33m" r.data y.data 3 '2' '3'
      rfl rfl (by decide) _ _ rfl rfl

theorem space_ne_yellow (shell : Shell) (y : String) :
    (" " : String) ≠ Color.Yellow.to_str false shell ++ y := by
  cases shell
  · exact str_ne_of_lit " " "%\x7b\x1b[33m%\x7d" [] y.data 0 ' ' '%'
      rfl rfl (by decide) _ _ rfl rfl
  · exact str_ne_of_lit " " "\x1b[33m" [] y.data 0 ' ' '\x1b'
      rfl rfl (by decide) _ _ rfl rfl

/-- C7: the composed prompt contains the `took {humanized duration}` clause
(colored with the yellow escape sequence of the target shell; the bold
attribute is still active from the preceding path/branch clause) exactly when
the elapsed duration reaches the fixed 2-second threshold `MIN_CMD_EXEC_TIME`;
below the threshold no `took` clause is emitted at all. -/
theorem claim_C7_took_clause (shell : Shell) (is_root : Bool) (path : String)
    (branch : Option String) (use_unicode : Bool) (elapsed : Nat) (nz : Bool) :
    (Color.Yellow.to_str false shell ++ "took " ++ humanize_duration elapsed ++ " ")
      ∈ prompt_clauses shell is_root path branch use_unicode elapsed nz
    ↔ MIN_CMD_EXEC_TIME ≤ elapsed := by
  constructor
  · intro hmem
    by_contra hlt
    rw [prompt_clauses.eq_def, if_neg hlt] at hmem
    rcases List.mem_append.mp hmem with h | hT
    · rcases List.mem_append.mp h with h | hSep
      · rcases List.mem_append.mp h with h | hTook
        · rcases List.mem_append.mp h with h | hB
          · rcases List.mem_append.mp h with hA | hPath
            · by_cases hir : is_root
              · rw [if_pos hir] at hA
                have heq := List.mem_singleton.mp hA
                simp only [strAppend_assoc] at heq
                exact bold_ne_yellow shell _ _ heq.symm
              · rw [if_neg hir] at hA
                exact absurd hA (List.not_mem_nil _)
            · have heq := List.mem_singleton.mp hPath
              simp only [strAppend_assoc] at heq
              exact bold_ne_yellow shell _ _ heq.symm
          · cases branch with
            | none => exact absurd hB (List.not_mem_nil _)
            | some b =>
              have heq := List.mem_singleton.mp hB
              simp only [strAppend_assoc] at heq
              exact reset_ne_yellow shell _ _ heq.symm
        · exact absurd hTook (List.not_mem_nil _)
      · have heq := List.mem_singleton.mp hSep
        simp only [strAppend_assoc] at heq
        by_cases hnz : nz = true
        · rw [if_pos hnz] at heq
          exact red_ne_yellow shell _ _ heq.symm
        · rw [if_neg hnz] at heq
          exact green_ne_yellow shell _ _ heq.symm
    · by_cases hsh : shell ≠ Shell.Bash
      · rw [if_pos hsh] at hT
        have heq := List.mem_singleton.mp hT
        simp only [strAppend_assoc] at heq
        exact space_ne_yellow shell _ heq.symm
      · rw [if_neg hsh] at hT
        exact absurd hT (List.not_mem_nil _)
  · intro h2
    rw [prompt_clauses.eq_def, if_pos h2]
    simp [List.mem_append]

theorem compose_tail (shell : Shell) (is_root : Bool) (path : String)
    (branch : Option String) (use_unicode : Bool) (elapsed : Nat) (nz : Bool) :
    ∃ pre, compose shell is_root path branch use_unicode elapsed nz
      = pre ++ ((if nz then Color.Red.to_str false shell else Color.Green.to_str false shell)
          ++ (if use_unicode then "❯" else "::") ++ Attribute.Reset.to_str shell)
        ++ (if shell = Shell.Zsh then " " else "") := by
  have hT : String.join (if shell ≠ Shell.Bash then [" "] else [])
      = (if shell = Shell.Zsh then " " else "") := by
    cases shell
    · show String.join [" "] = " "
      rw [strJoin_cons]
      exact strAppend_nil _
    · rfl
  exact ⟨_, by rw [compose, prompt_clauses.eq_def, strJoin_concat₂, hT, ← strAppend_assoc]⟩

/-- C8: the composed prompt always ends with the status separator — red escape
on a non-zero exit code, green on zero, the glyph `❯` in unicode mode and `::`
otherwise — followed by the attribute reset; the zsh target then gets exactly
one trailing space and the bash target none. -/
theorem claim_C8_separator (shell : Shell) (is_root : Bool) (path : String)
    (branch : Option String) (use_unicode : Bool) (elapsed : Nat) (nz : Bool) :
    ∃ pre, compose shell is_root path branch use_unicode elapsed nz
      = pre ++ ((if nz then Color.Red.to_str false shell else Color.Green.to_str false shell)
          ++ (if use_unicode then "❯" else "::") ++ Attribute.Reset.to_str shell)
        ++ (if shell = Shell.Zsh then " " else "") :=
  compose_tail shell is_root path branch use_unicode elapsed nz

/-- Model of Rust `str::parse::<usize>()`: optional leading `'+'`, then at
least one ASCII digit, value below 2^64 (overflow of the 64-bit usize fails). -/
def parseUsize (s : String) : Option Nat :=
  let l := match s.data with
    | '+' :: rest => rest
    | l => l
  if l = [] then none
  else if l.all Char.isDigit then
    let v := l.foldl (fun acc c => acc * 10 + (c.toNat - '0'.toNat)) 0
    if v < 2 ^ 64 then some v else none
  else none

/-- `elapsed_seconds_validator` from `src/main.rs` (lines 15-21). -/
def elapsed_seconds_validator (s : String) : Except String Unit :=
  if (parseUsize s).isSome then Except.ok ()
  else Except.error "The argument must be a valid positive integer"

/-- The process environment and collaborator state read by one prompt
invocation: the current directory, the discovered git repository (if any) and
whether the process runs as root. -/
structure Env where
  cwd : Option String
  git : Option GitRepo
  isRoot : Bool

/-- The `prompt` subcommand of `main` (`src/main.rs` lines 174-262).  The clap
argument layer is modelled from the registered constraints: the shell argument
is restricted by `possible_values(&Shell::SUPPORTED)` (equivalently,
`Shell::try_from` must succeed) and the elapsed-seconds argument by
`elapsed_seconds_validator`; the exit-code argument has no validator and is
used only through the raw comparison `!= "0"`.  `Except.error` models both a
clap rejection (diagnostic on stderr, non-zero exit, nothing rendered) and an
abort by panic inside `get_current_path`. -/
def main_prompt (exit_code shellArg elapsedArg : String)
    (use_unicode use_short_path : Bool) (env : Env) : Except String String :=
  match Shell.tryFrom shellArg with
  | Except.error _ => Except.error "error: invalid value for shell"
  | Except.ok shell =>
    match elapsed_seconds_validator elapsedArg with
    | Except.error e => Except.error e
    | Except.ok _ =>
      let non_zero_exit_status : Bool := decide (exit_code ≠ "0")
      let git := env.git
      match get_current_path env.cwd
          (if use_short_path then some (git.bind Git.toplevel) else none) with
      | Except.error e => Except.error e
      | Except.ok pathOpt =>
        let path := pathOpt.getD "??"
        let is_root := env.isRoot
        match parseUsize elapsedArg with
        | none => Except.error "unreachable: elapsed seconds already validated"
        | some elapsed =>
          Except.ok (compose shell is_root path (git.bind Git.branch) use_unicode
            elapsed non_zero_exit_status)

/-- C6 (amended): an unsupported shell identifier or an elapsed-seconds string
that does not parse as a non-negative 64-bit integer is rejected before any
rendering, with an error (non-zero exit, diagnostic on standard error) and no
output; the exit-code argument, by contrast, is not validated at all (see the
counterexample and C10). -/
theorem claim_C6_validation (exit_code shellArg elapsedArg : String)
    (use_unicode use_short_path : Bool) (env : Env)
    (h : Shell.tryFrom shellArg = Except.error () ∨ parseUsize elapsedArg = none) :
    ∃ msg, main_prompt exit_code shellArg elapsedArg use_unicode use_short_path env
      = Except.error msg := by
  rcases h with h | h
  · exact ⟨"error: invalid value for shell", by rw [main_prompt.eq_def, h]⟩
  · cases htf : Shell.tryFrom shellArg with
    | error e => exact ⟨"error: invalid value for shell", by rw [main_prompt.eq_def, htf]⟩
    | ok sh =>
      refine ⟨"The argument must be a valid positive integer", ?_⟩
      rw [main_prompt.eq_def, htf]
      have hv : elapsed_seconds_validator elapsedArg
          = Except.error "The argument must be a valid positive integer" := by
        rw [elapsed_seconds_validator, h]
        rfl
      rw [hv]

/-- C6 witness: `claim_C6_validation` at the unsupported shell `fish` and at a
negative elapsed-seconds value. -/
theorem claim_C6_witness :
    (∃ msg, main_prompt "0" "fish" "5" false false ⟨none, none, false⟩
      = Except.error msg)
    ∧ (∃ msg, main_prompt "0" "zsh" "-3" false false ⟨none, none, false⟩
      = Except.error msg) :=
  ⟨claim_C6_validation "0" "fish" "5" false false ⟨none, none, false⟩ (Or.inl rfl),
   claim_C6_validation "0" "zsh" "-3" false false ⟨none, none, false⟩ (Or.inr rfl)⟩

/-- C6 counterexample: a malformed exit code (here a non-numeric string) is not
rejected — the invocation proceeds and renders a prompt, contradicting the
claim that malformed exit codes are fatal to the invocation. -/
theorem claim_C6_counterexample :
    ∃ s, main_prompt "not-a-number" "zsh" "0" false false ⟨none, none, false⟩
      = Except.ok s :=
  ⟨_, rfl⟩

theorem main_prompt_valid_reduce (exit_code : String) (uni : Bool) (env : Env)
    (shellArg : String) (sh : Shell) (hsh : Shell.tryFrom shellArg = Except.ok sh) :
    main_prompt exit_code shellArg "0" uni false env
      = Except.ok (compose sh env.isRoot ((env.cwd.map homeSubst).getD "??")
          (env.git.bind Git.branch) uni 0 (decide (exit_code ≠ "0"))) := by
  obtain ⟨cwd, git, isr⟩ := env
  rw [main_prompt.eq_def, hsh]
  cases cwd <;> rfl

/-- C10: the exit-code argument is compared as a raw string against `"0"`: for
every argument string — including `"00"`, `"0x0"` or non-numeric text — the
invocation proceeds and renders a prompt whose separator is green exactly when
the string is `"0"` and red otherwise. -/
theorem claim_C10_exit_code_raw (exit_code : String) (uni : Bool) (env : Env) :
    (∃ pre, main_prompt exit_code "zsh" "0" uni false env
      = Except.ok (pre ++ ((if exit_code = "0" then Color.Green.to_str false Shell.Zsh
          else Color.Red.to_str false Shell.Zsh)
          ++ (if uni then "❯" else "::") ++ Attribute.Reset.to_str Shell.Zsh) ++ " "))
    ∧ (∃ pre, main_prompt exit_code "bash" "0" uni false env
      = Except.ok (pre ++ ((if exit_code = "0" then Color.Green.to_str false Shell.Bash
          else Color.Red.to_str false Shell.Bash)
          ++ (if uni then "❯" else "::") ++ Attribute.Reset.to_str Shell.Bash))) := by
  constructor
  · obtain ⟨pre, hp⟩ := compose_tail Shell.Zsh env.isRoot ((env.cwd.map homeSubst).getD "??")
      (env.git.bind Git.branch) uni 0 (decide (exit_code ≠ "0"))
    refine ⟨pre, ?_⟩
    rw [main_prompt_valid_reduce exit_code uni env "zsh" Shell.Zsh rfl, hp]
    by_cases hec : exit_code = "0"
    · simp [hec]
    · simp [hec]
  · obtain ⟨pre, hp⟩ := compose_tail Shell.Bash env.isRoot ((env.cwd.map homeSubst).getD "??")
      (env.git.bind Git.branch) uni 0 (decide (exit_code ≠ "0"))
    refine ⟨pre, ?_⟩
    rw [main_prompt_valid_reduce exit_code uni env "bash" Shell.Bash rfl, hp]
    by_cases hec : exit_code = "0"
    · simp [hec, strAppend_nil]
    · simp [hec, strAppend_nil]
